import Mathlib

/-!
Verification development for the restify decorator-driven HTTP client.

The definitions below are a shallow embedding of the request pipeline in
`src/lib/Restify.ts` (class `Restify`, method `executeRequest`), of the
cancellation registry in `src/lib/decorators/Cancelable.ts`
(`getAbortController`), and of the metadata written by the parameter and
method decorators (`Field.ts`, `Query.ts`, `Retry.ts`, `Deprecated.ts`,
`Mock.ts`, `OnError.ts`, `FormUrlEncoded.ts`).

JavaScript runtime values are modelled by the inductive `JSValue`; plain
objects (string-keyed records) are association lists that keep insertion
order, matching the enumeration order of non-integer-like string keys in
JS engines.  Numbers are modelled as integers, which covers every value
the verified claims exercise.  Promise-returning code is modelled by its
settled value; thrown errors travel in `Except`/`Outcome`.
-/

namespace RestifyModel

/-- JavaScript runtime values that flow through the request pipeline. -/
inductive JSValue where
  | undef
  | null
  | str (s : String)
  | num (n : Int)
  | bool (b : Bool)
  | obj (fields : List (String × JSValue))

/-- The JS test `value !== undefined` (`undefined` is the only value whose
strict comparison with `undefined` succeeds). -/
def JSValue.isUndef : JSValue → Bool
  | .undef => true
  | _ => false

/-- The JS test `value !== null`. -/
def JSValue.isNull : JSValue → Bool
  | .null => true
  | _ => false

/-- The JS `String(value)` conversion as applied by `executeRequest` to
path, header and form-field values. -/
def jsToString : JSValue → String
  | .undef => "undefined"
  | .null => "null"
  | .str s => s
  | .num n => toString n
  | .bool b => if b then "true" else "false"
  | .obj _ => "[object Object]"

/-- Insert-or-update on a JS record / `Map`: an existing key keeps its
position and gets the new value, a fresh key is appended (JS insertion
order for string keys). -/
def recordSet {α β : Type} [DecidableEq α] (r : List (α × β)) (k : α) (v : β) :
    List (α × β) :=
  if r.any (fun e => e.1 = k) then
    r.map (fun e => if e.1 = k then (k, v) else e)
  else
    r ++ [(k, v)]

/-- Key lookup on a JS record / `Map`. -/
def recordGet {α β : Type} [DecidableEq α] (r : List (α × β)) (k : α) : Option β :=
  (r.find? (fun e => decide (e.1 = k))).map (fun e => e.2)

/-- One upper-case hexadecimal digit. -/
def hexDigit (n : Nat) : Char :=
  if n < 10 then Char.ofNat (48 + n) else Char.ofNat (55 + n)

/-- UTF-8 bytes of a unicode code point, as `Nat`s below 256. -/
def utf8Bytes (n : Nat) : List Nat :=
  if n < 128 then [n]
  else if n < 2048 then [192 + n / 64, 128 + n % 64]
  else if n < 65536 then [224 + n / 4096, 128 + (n / 64) % 64, 128 + n % 64]
  else [240 + n / 262144, 128 + (n / 4096) % 64, 128 + (n / 64) % 64, 128 + n % 64]

/-- Percent-escape of one byte: `%XX`. -/
def percentByte (n : Nat) : List Char :=
  ['%', hexDigit (n / 16), hexDigit (n % 16)]

/-- Characters that `encodeURIComponent` leaves unescaped
(ECMA-262 `uriUnescaped`): alphanumerics and `- _ . ! ~ * ( )` and the
apostrophe (code point 39). -/
def uriUnescaped (c : Char) : Bool :=
  c.isAlphanum || c = '-' || c = '_' || c = '.' || c = '!' || c = '~' ||
    c = '*' || c = Char.ofNat 39 || c = '(' || c = ')'

def encodeURIComponentChar (c : Char) : List Char :=
  if uriUnescaped c then [c] else ((utf8Bytes c.toNat).map percentByte).flatten

/-- ECMA-262 `encodeURIComponent`, used for query-string keys and values
(Restify.ts lines 171-176); note space encodes to `%20` here. -/
def encodeURIComponent (s : String) : String :=
  ⟨(s.data.map encodeURIComponentChar).flatten⟩

/-- Characters the `application/x-www-form-urlencoded` serializer keeps
verbatim: alphanumerics and `* - . _`. -/
def formSafe (c : Char) : Bool :=
  c.isAlphanum || c = '*' || c = '-' || c = '.' || c = '_'

def formEncodeChar (c : Char) : List Char :=
  if c = ' ' then ['+']
  else if formSafe c then [c]
  else ((utf8Bytes c.toNat).map percentByte).flatten

/-- The WHATWG `application/x-www-form-urlencoded` escape of one string,
as applied by `URLSearchParams.toString()` (space becomes `+`). -/
def formEncode (s : String) : String :=
  ⟨(s.data.map formEncodeChar).flatten⟩

/-- JS array joining with a separator (`[...].join(sep)`). -/
def joinWith (sep : String) : List String → String
  | [] => ""
  | [x] => x
  | x :: y :: xs => x ++ sep ++ joinWith sep (y :: xs)

/-- `new URLSearchParams(formFields).toString()` (Restify.ts line 156):
entries in record insertion order, keys and values form-encoded. -/
def urlSearchParamsToString (fields : List (String × String)) : String :=
  joinWith "&" (fields.map (fun kv => formEncode kv.1 ++ "=" ++ formEncode kv.2))

/-- Split `s` around the first occurrence of `pat`: `some (pre, post)`
with `s = pre ++ pat ++ post` and no earlier occurrence, or `none` when
`pat` does not occur in `s`. -/
def splitFirstL (pat : List Char) : List Char → Option (List Char × List Char)
  | [] => if pat.isPrefixOf ([] : List Char) then some ([], []) else none
  | c :: rest =>
    if pat.isPrefixOf (c :: rest) then some ([], (c :: rest).drop pat.length)
    else (splitFirstL pat rest).map (fun pr => (c :: pr.1, pr.2))

/-- ECMA-262 `GetSubstitution` for a replace with a string search
pattern: expand the dollar escapes of the replacement template.
`matched` is the matched text (for a string pattern, the pattern
itself), `pre` and `post` the parts of the subject before and after the
match.  Expanded sequences: a doubled dollar gives one dollar, dollar
ampersand the matched text, dollar backquote (code point 96) the
preceding part, dollar apostrophe (code point 39) the following part;
there are no capture groups with a string pattern, so every other
dollar sequence (digits, dollar-angle, a trailing dollar) stays
literal. -/
def getSubstitution (matched pre post : List Char) : List Char → List Char
  | [] => []
  | c :: rest =>
    if c = Char.ofNat 36 then
      match rest with
      | [] => [c]
      | d :: rest2 =>
        if d = Char.ofNat 36 then Char.ofNat 36 :: getSubstitution matched pre post rest2
        else if d = '&' then matched ++ getSubstitution matched pre post rest2
        else if d = Char.ofNat 96 then pre ++ getSubstitution matched pre post rest2
        else if d = Char.ofNat 39 then post ++ getSubstitution matched pre post rest2
        else c :: d :: getSubstitution matched pre post rest2
    else c :: getSubstitution matched pre post rest

/-- Replace the first occurrence of `pat` in `s` by the expansion of the
replacement template `rep`; `s` unchanged when `pat` does not occur. -/
def replaceFirstL (s pat rep : List Char) : List Char :=
  match splitFirstL pat s with
  | none => s
  | some pr => pr.1 ++ getSubstitution pat pr.1 pr.2 rep ++ pr.2

/-- JS `s.replace(pat, rep)` with a plain-string pattern: only the first
occurrence is replaced, and the replacement string is a template whose
dollar escapes are expanded per `GetSubstitution` (used by the `:key`
path substitution, Restify.ts line 137). -/
def jsReplaceFirst (s pat rep : String) : String :=
  ⟨replaceFirstL s.data pat.data rep.data⟩

/-- Errors that can reach a caller of a decorated method: an axios
rejection carrying a response (with its status), a network-level
rejection without a response, or a generic thrown `Error`. -/
inductive JSError where
  | respErr (status : Int)
  | netErr (msg : String)
  | thrown (msg : String)
  deriving DecidableEq

/-- The binding kinds stored in `restify:parameters` metadata: the four of
`types.ts` plus those added by the `Field`, `OnUploadProgress` and
`OnDownloadProgress` decorators. -/
inductive ParamType where
  | query
  | queryMap
  | path
  | body
  | header
  | field
  | uploadProgress
  | downloadProgress
  deriving DecidableEq

/-- One entry of the `restify:parameters` metadata array. -/
structure ParameterMetadata where
  index : Nat
  type : ParamType
  key : Option String
  deriving DecidableEq

/-- TypeScript (experimentalDecorators) invokes parameter decorators from
the last parameter to the first; each decorator pushes its entry onto the
`restify:parameters` array (Field.ts lines 146-175 and the analogous
`Query`/`Path`/`Body`/`Header` decorators).  Hence for parameters declared
left-to-right `d1 ... dn` the stored metadata array is `dn ... d1`. -/
def declaredParameters (decls : List ParameterMetadata) : List ParameterMetadata :=
  decls.reverse

/-- `restify:method` metadata written by the HTTP-verb decorators. -/
structure MethodMetadata where
  method : String
  path : String
  propertyKey : String

/-- `Object.entries(value)` for the values a `@QueryMap` argument can
take: objects enumerate their entries in insertion order, strings
enumerate their character indices, numbers and booleans have no own
enumerable properties.  `Object.entries(null)` throws and is handled at
the call site in `processParam`. -/
def jsObjectEntries : JSValue → List (String × JSValue)
  | .obj fields => fields
  | .str s => s.data.enum.map (fun ic => (toString ic.1, JSValue.str (String.singleton ic.2)))
  | _ => []

/-- The mutable locals of the parameter loop in `executeRequest`
(Restify.ts lines 104-110): working url, query record, header record,
form-field record and the body slot.  The two progress-callback slots are
omitted: they are only forwarded to the transport and are not observed by
any verified property. -/
structure ParamState where
  url : String
  queryParams : List (String × JSValue)
  headers : List (String × String)
  formFields : List (String × String)
  body : JSValue

def initParamState (path : String) : ParamState :=
  { url := path, queryParams := [], headers := [], formFields := [], body := .undef }

/-- One iteration of the parameter loop (Restify.ts lines 120-152) on
`value = args[param.index]` (JS indexing past the end gives `undefined`).
The guards mirror the JS conditions literally: `param.key` is truthy
(defined and non-empty) and `value !== undefined`; a single `@Query`
binding does NOT test for `null`, while the `@QueryMap` merge skips both
`undefined` and `null` values.  A `@QueryMap` argument equal to `null`
makes `Object.entries` throw a `TypeError`, the only failure of the
loop. -/
def processParam (args : List JSValue) (st : ParamState) (p : ParameterMetadata) :
    Except JSError ParamState :=
  let value := args.getD p.index .undef
  match p.type with
  | .query =>
    match p.key with
    | some k =>
      if k ≠ "" && !value.isUndef then
        .ok { st with queryParams := recordSet st.queryParams k value }
      else .ok st
    | none => .ok st
  | .queryMap =>
    if value.isUndef then .ok st
    else if value.isNull then
      .error (.thrown "TypeError: Cannot convert undefined or null to object")
    else
      .ok { st with queryParams :=
        ((jsObjectEntries value).foldl
          (fun qp kv => if !kv.2.isUndef && !kv.2.isNull then recordSet qp kv.1 kv.2 else qp)
          st.queryParams) }
  | .path =>
    match p.key with
    | some k =>
      if k ≠ "" && !value.isUndef then
        .ok { st with url := jsReplaceFirst st.url (":" ++ k) (jsToString value) }
      else .ok st
    | none => .ok st
  | .body => .ok { st with body := value }
  | .header =>
    match p.key with
    | some k =>
      if k ≠ "" && !value.isUndef then
        .ok { st with headers := recordSet st.headers k (jsToString value) }
      else .ok st
    | none => .ok st
  | .field =>
    match p.key with
    | some k =>
      if k ≠ "" && !value.isUndef then
        .ok { st with formFields := recordSet st.formFields k (jsToString value) }
      else .ok st
    | none => .ok st
  | .uploadProgress => .ok st
  | .downloadProgress => .ok st

/-- The whole parameter loop, iterating the stored metadata array in
order. -/
def processParams (args : List JSValue) :
    List ParameterMetadata → ParamState → Except JSError ParamState
  | [], st => .ok st
  | p :: ps, st =>
    match processParam args st p with
    | .error e => .error e
    | .ok st' => processParams args ps st'

/-- The form-url-encoding step (Restify.ts lines 154-158): with
`@FormUrlEncoded` and at least one collected field, the body becomes the
url-encoded field string and the content-type header is set. -/
def applyFormUrlEncoding (isFormUrlEncoded : Bool) (st : ParamState) : ParamState :=
  if isFormUrlEncoded && !st.formFields.isEmpty then
    { st with
      body := .str (urlSearchParamsToString st.formFields),
      headers := recordSet st.headers "Content-Type" "application/x-www-form-urlencoded" }
  else st

/-- The query-string build (Restify.ts lines 171-176):
`encodeURIComponent(key)=encodeURIComponent(String(value))` joined by
`&`. -/
def buildQueryString (qp : List (String × JSValue)) : String :=
  joinWith "&"
    (qp.map (fun kv => encodeURIComponent kv.1 ++ "=" ++ encodeURIComponent (jsToString kv.2)))

/-- URL assembly (Restify.ts lines 166-185): class base path plus working
path, `?`-joined query string; a truthy `@BaseUrl` override prefixes the
path (forcing exactly one leading slash) with that base URL. -/
def assembleURL (basePath baseURL : Option String) (url queryString : String) : String :=
  let fullPath := (basePath.getD "") ++ url
  let finalURL := if queryString ≠ "" then fullPath ++ "?" ++ queryString else fullPath
  match baseURL with
  | some b =>
    if b ≠ "" then
      let path := if fullPath.startsWith "/" then fullPath else "/" ++ fullPath
      let pathWithQuery := if queryString ≠ "" then path ++ "?" ++ queryString else path
      b ++ pathWithQuery
    else finalURL
  | none => finalURL

/-- Everything `executeRequest` has assembled once line 185 is reached. -/
structure AssembledRequest where
  finalURL : String
  headers : List (String × String)
  body : JSValue
  queryParams : List (String × JSValue)
  formFields : List (String × String)
  url : String

/-- The assembly phase of `executeRequest` (Restify.ts lines 104-185):
parameter routing, form encoding, query-string build and URL assembly. -/
def assembleRequest (meta : MethodMetadata) (parameters : List ParameterMetadata)
    (isFormUrlEncoded : Bool) (basePath baseURL : Option String)
    (args : List JSValue) : Except JSError AssembledRequest :=
  match processParams args parameters (initParamState meta.path) with
  | .error e => .error e
  | .ok st0 =>
    let st := applyFormUrlEncoding isFormUrlEncoded st0
    let qs := buildQueryString st.queryParams
    .ok { finalURL := assembleURL basePath baseURL st.url qs
          headers := st.headers
          body := st.body
          queryParams := st.queryParams
          formFields := st.formFields
          url := st.url }

/-- The normalized `{data, status, headers}` envelope returned to the
caller (`RestifyResponse` in types.ts). -/
structure RestifyResponse where
  data : JSValue
  status : Int
  headers : List (String × String)

/-- A raw axios response before normalization; header values may be
non-strings. -/
structure AxiosResponse where
  data : JSValue
  status : Int
  headers : List (String × JSValue)

/-- The request configuration handed to `axiosInstance.request`
(Restify.ts lines 252-276); the response-type hint, credentials flag,
abort signal and progress callbacks are omitted as they do not affect
any value the verified properties observe. -/
structure AxiosRequestConfig where
  method : String
  url : String
  headers : List (String × String)
  data : JSValue

/-- Header normalization (Restify.ts lines 313-318): keep string-valued
entries only (`Object.entries` yields each key once, so a filter is
faithful). -/
def stringHeaders (hs : List (String × JSValue)) : List (String × String) :=
  hs.filterMap (fun kv => match kv.2 with
    | .str s => some (kv.1, s)
    | _ => none)

/-- A full `Required<RetryOptions>` record as stored by the `Retry`
decorator. -/
structure RetryConfig where
  attempts : Nat
  delay : Nat
  backoff : Nat
  maxDelay : Nat
  shouldRetry : JSError → Bool

/-- The default `shouldRetry` predicate (Retry.ts lines 94-104): an error
carrying a `response` field retries when its status is truthy and at
least 500, or when the status is falsy; errors without a response
(network-level or other thrown errors) always retry. -/
def defaultShouldRetry : JSError → Bool
  | .respErr status => if status ≠ 0 then decide (500 ≤ status) else true
  | _ => true

/-- `Retry(options)` with every default filled in (Retry.ts
lines 88-105). -/
def mkRetryConfig (attempts delay backoff maxDelay : Option Nat)
    (shouldRetry : Option (JSError → Bool)) : RetryConfig :=
  { attempts := attempts.getD 3
    delay := delay.getD 1000
    backoff := backoff.getD 2
    maxDelay := maxDelay.getD 30000
    shouldRetry := shouldRetry.getD defaultShouldRetry }

/-- The retry wait `min(delay * backoff ^ attempt, maxDelay)`
(Restify.ts lines 373-376); the wait is a non-blocking suspension and
does not change the outcome, so it is recorded but unused. -/
def retryDelay (c : RetryConfig) (attempt : Nat) : Nat :=
  min (c.delay * c.backoff ^ attempt) c.maxDelay

/-- What an `@OnError` handler does with an error (OnError.ts): return a
defined value (becomes the envelope), return `undefined`, or throw. -/
inductive HandlerResult where
  | retVal (r : RestifyResponse)
  | retUndef
  | thrw (e : JSError)

/-- The settlement of one transport dispatch. -/
inductive TransportResult where
  | success (resp : AxiosResponse)
  | failure (e : JSError)

/-- The settlement of a decorated-method call. -/
inductive Outcome where
  | ok (r : RestifyResponse)
  | err (e : JSError)

/-- The `executeWithRetry` closure of `executeRequest` (Restify.ts lines
230-391).  The transport is an oracle indexed by the number of dispatches
made so far, so the number of transport invocations is observable; the
second component of the result is the total dispatch count.  The
per-attempt cancellation lookup, logging, and progress plumbing do not
affect the returned value and are omitted.  On a failed dispatch an
`@OnError` handler is consulted first; otherwise, with a retry policy,
while `attempt < attempts` and the predicate accepts the error the call
recurses with `attempt + 1`; otherwise the error is rethrown
unchanged. -/
def executeWithRetry (retryConfig : Option RetryConfig)
    (beforeRequest : Option (AxiosRequestConfig → AxiosRequestConfig))
    (afterResponse : Option (AxiosResponse → AxiosResponse))
    (errorHandler : Option (JSError → HandlerResult))
    (transformFn : Option (JSValue → JSValue))
    (baseConfig : AxiosRequestConfig)
    (transport : Nat → AxiosRequestConfig → TransportResult)
    (calls attempt : Nat) : Outcome × Nat :=
  let requestConfig := match beforeRequest with
    | some f => f baseConfig
    | none => baseConfig
  match transport calls requestConfig with
  | .success resp0 =>
    let resp := match afterResponse with
      | some f => f resp0
      | none => resp0
    let transformedData := match transformFn with
      | some f => f resp.data
      | none => resp.data
    (.ok { data := transformedData, status := resp.status,
           headers := stringHeaders resp.headers }, calls + 1)
  | .failure e =>
    match errorHandler with
    | some handler =>
      match handler e with
      | .retVal r => (.ok r, calls + 1)
      | .retUndef => (.ok { data := .undef, status := 0, headers := [] }, calls + 1)
      | .thrw e2 => (.err e2, calls + 1)
    | none =>
      match hrc : retryConfig with
      | some c =>
        if h : attempt < c.attempts then
          if c.shouldRetry e then
            executeWithRetry retryConfig beforeRequest afterResponse errorHandler
              transformFn baseConfig transport (calls + 1) (attempt + 1)
          else (.err e, calls + 1)
        else (.err e, calls + 1)
      | none => (.err e, calls + 1)
termination_by retryConfig.elim 0 (fun c => c.attempts) - attempt
decreasing_by
  simp only [hrc, Option.elim]
  omega

/-- `restify:deprecated` metadata (`{message, options}` as stored by the
`Deprecated` decorator); `strict` is the truthy evaluation of
`options?.strict`. -/
structure DeprecatedMetadata where
  message : Option String
  strict : Bool

/-- The deprecation message (Restify.ts lines 77-79): a falsy stored
message (absent or empty) falls back to the generated one. -/
def deprecatedMessage (propertyKey : String) (d : DeprecatedMetadata) : String :=
  match d.message with
  | some m => if m ≠ "" then m else "Method '" ++ propertyKey ++ "' is deprecated"
  | none => "Method '" ++ propertyKey ++ "' is deprecated"

/-- `@Mock` payload: static data or a computed handler (`MockHandler` in
Mock.ts); asynchronous handlers are modelled by their resolved value. -/
inductive MockPayload where
  | static (v : JSValue)
  | computed (f : Unit → JSValue)

def MockPayload.eval : MockPayload → JSValue
  | .static v => v
  | .computed f => f ()

/-- `MockOptions` as stored by the `Mock` decorator (Mock.ts
lines 6-11). -/
structure MockOptions where
  data : MockPayload
  delay : Option Nat
  status : Option Int
  enabled : Option Bool

/-- Modelled from the spec: the mock short-circuit step of the request
pipeline.  The `src` snapshot of `Restify.ts` (and of `constants.ts`) is
an earlier revision lacking the mock branch of `executeRequest`, while
the `Mock` decorator, its tests and the README document it.  Spec
section 4.1 step 6: when a mock annotation is present and its
enabled-predicate evaluates true (default: true in development, false in
production), optionally wait the simulated delay, then return the
configured payload wrapped as a Response Envelope with the configured
status (default 200), skipping network and retry entirely. -/
def mockShortCircuit (mock : Option MockOptions) (devMode : Bool) :
    Option RestifyResponse :=
  match mock with
  | none => none
  | some m =>
    if m.enabled.getD devMode then
      some { data := m.data.eval, status := m.status.getD 200, headers := [] }
    else none

/-- The per-method metadata `executeRequest` reads through
`Reflect.getMetadata`.  The logger flag, response-type hint, credentials
flag and the cancellation options are omitted here: none of them affects
a value the verified properties observe (cancellation is verified
directly on `getAbortController` below). -/
structure MethodAnnotations where
  deprecated : Option DeprecatedMetadata
  parameters : List ParameterMetadata
  formUrlEncoded : Bool
  retry : Option RetryConfig
  onError : Option (JSError → HandlerResult)
  transform : Option (JSValue → JSValue)
  beforeRequest : Option (AxiosRequestConfig → AxiosRequestConfig)
  afterResponse : Option (AxiosResponse → AxiosResponse)
  mock : Option MockOptions

/-- A method with no optional annotations at all. -/
def bareAnnotations (parameters : List ParameterMetadata) : MethodAnnotations :=
  { deprecated := none
    parameters := parameters
    formUrlEncoded := false
    retry := none
    onError := none
    transform := none
    beforeRequest := none
    afterResponse := none
    mock := none }

/-- `executeRequest` (Restify.ts lines 62-394) with the spec-modelled
mock step inserted after assembly: deprecation gate, parameter routing
and request assembly, mock short-circuit, then dispatch with retry.  The
result pairs the call's settlement with the number of transport
dispatches it performed. -/
def executeRequest (ann : MethodAnnotations) (meta : MethodMetadata)
    (basePath baseURL : Option String) (args : List JSValue) (devMode : Bool)
    (transport : Nat → AxiosRequestConfig → TransportResult) : Outcome × Nat :=
  let deprecatedGate : Option JSError :=
    match ann.deprecated with
    | some d =>
      if d.strict then some (.thrown (deprecatedMessage meta.propertyKey d)) else none
    | none => none
  match deprecatedGate with
  | some e => (.err e, 0)
  | none =>
    match assembleRequest meta ann.parameters ann.formUrlEncoded basePath baseURL args with
    | .error e => (.err e, 0)
    | .ok req =>
      match mockShortCircuit ann.mock devMode with
      | some r => (.ok r, 0)
      | none =>
        executeWithRetry ann.retry ann.beforeRequest ann.afterResponse ann.onError
          ann.transform
          { method := meta.method, url := req.finalURL
            headers := req.headers, data := req.body }
          transport 0 0

/-- Cancellation strategy of the `Cancelable` decorator
(Cancelable.ts line 13). -/
inductive CancelStrategy where
  | latest
  | all
  deriving DecidableEq

/-- The module-level controller store of Cancelable.ts (lines 16-20): a
weak map from instance (modelled by a numeric identity) to a per-method
map of abort controllers.  Controllers are identified by creation order
(`nextId`); `aborted` records every controller whose `abort()` was
called.  The two nested maps are flattened into one keyed by
(instance, method name), which is faithful because each inner map is
reachable only through its instance. -/
structure CancelState where
  nextId : Nat
  entries : List ((Nat × String) × Nat)
  aborted : List Nat

def initialCancelState : CancelState :=
  { nextId := 0, entries := [], aborted := [] }

/-- `getAbortController` (Cancelable.ts lines 88-111): under `latest` any
existing controller for (instance, method) is aborted; in every case a
fresh controller is created and stored under that key — `Map.set`
replaces any prior entry.  Returns the new controller's id. -/
def getAbortController (st : CancelState) (inst : Nat) (propertyKey : String)
    (strategy : CancelStrategy) : CancelState × Nat :=
  let key := (inst, propertyKey)
  let st1 :=
    if strategy = .latest then
      match recordGet st.entries key with
      | some c => { st with aborted := c :: st.aborted }
      | none => st
    else st
  let controller := st1.nextId
  ({ st1 with
      nextId := controller + 1
      entries := recordSet st1.entries key controller },
   controller)

/-- Well-formedness of the controller store: every controller id it
mentions was created before `nextId`. -/
def CancelState.wf (st : CancelState) : Prop :=
  (∀ c ∈ st.aborted, c < st.nextId) ∧ (∀ e ∈ st.entries, e.2 < st.nextId)

/-- The decorated-method slot on a class's shared prototype.
`initializeRoutes` (Restify.ts lines 41-60) overwrites
`proto[methodName]` with an async arrow function that lexically captures
`this` — the instance currently being constructed.  The assignment
targets the prototype shared by every instance of the class, so the slot
records which instance's closure is installed at the moment. -/
structure PrototypeSlot where
  boundInstance : Option Nat

/-- The `Restify` constructor (Restify.ts lines 36-39): stores the given
transport on the instance, then `initializeRoutes` installs on the shared
prototype slot the wrapper closure capturing this very instance. -/
def restifyConstructor (_slot : PrototypeSlot) (inst : Nat) : PrototypeSlot :=
  { boundInstance := some inst }

/-- Calling a decorated method: the receiver finds the wrapper on the
prototype and runs it; the wrapper ignores the receiver and calls
`this.executeRequest` on the captured instance, hence dispatches through
the captured instance's `axiosInstance`.  `transportOf` maps an instance
id to the transport it was constructed with; the result is the transport
actually used (`none` when no wrapper is installed). -/
def methodCallTransport (slot : PrototypeSlot) (_receiver : Nat)
    (transportOf : Nat → Nat) : Option Nat :=
  match slot.boundInstance with
  | some captured => some (transportOf captured)
  | none => none

/-- Prefix-incomparability of two placeholder keys: neither is a prefix
of the other. -/
def keyIncomp (a b : List Char) : Prop :=
  a.isPrefixOf b = false ∧ b.isPrefixOf a = false

instance : DecidableRel keyIncomp := fun a b =>
  (inferInstance : Decidable (a.isPrefixOf b = false ∧ b.isPrefixOf a = false))

/-- A decomposition of a path template into literal pieces and `:key`
placeholders.  A template "contains the distinct placeholders k1 ... kn"
exactly when it renders from such a decomposition whose literal pieces
are colon-free and whose holes are those keys. -/
inductive Chunk where
  | lit (s : List Char)
  | hole (k : List Char)

def renderChunks : List Chunk → List Char
  | [] => []
  | .lit s :: cs => s ++ renderChunks cs
  | .hole k :: cs => ':' :: (k ++ renderChunks cs)

def chunkHoles : List Chunk → List (List Char)
  | [] => []
  | .lit _ :: cs => chunkHoles cs
  | .hole k :: cs => k :: chunkHoles cs

/-- Replace the first `:k` hole by the literal text `v`. -/
def substHole : List Chunk → List Char → List Char → List Chunk
  | [], _, _ => []
  | .lit s :: cs, k, v => .lit s :: substHole cs k v
  | .hole k' :: cs, k, v =>
    if k' = k then .lit v :: cs else .hole k' :: substHole cs k v

/-- Colon-freedom of a chunk's own text. -/
def chunkColonFree : Chunk → Prop
  | .lit s => ':' ∉ s
  | .hole k => ':' ∉ k

instance : DecidablePred chunkColonFree := fun c =>
  match c with
  | .lit s => (inferInstance : Decidable (':' ∉ s))
  | .hole k => (inferInstance : Decidable (':' ∉ k))

/-- The whole path-substitution pass of the parameter loop: fold
`url.replace(":" + key, value)` over the collected (key, value) pairs in
metadata order. -/
def substAll (subs : List (List Char × List Char)) (u : List Char) : List Char :=
  subs.foldl (fun u kv => replaceFirstL u (':' :: kv.1) kv.2) u

/-- The (key, substituted text) pairs a parameter list routes into the
path, in processing order: the `@Path` bindings with a truthy key and a
defined argument. -/
def pathSubsL (args : List JSValue) : List ParameterMetadata → List (List Char × List Char)
  | [] => []
  | p :: ps =>
    match p.type with
    | .path =>
      match p.key with
      | some k =>
        if k ≠ "" && !(args.getD p.index .undef).isUndef then
          (k.data, (jsToString (args.getD p.index .undef)).data) :: pathSubsL args ps
        else pathSubsL args ps
      | none => pathSubsL args ps
    | _ => pathSubsL args ps

theorem recordGet_set_self {α β : Type} [DecidableEq α]
    (r : List (α × β)) (k : α) (v : β) :
    recordGet (recordSet r k v) k = some v := by
  induction r with
  | nil => simp [recordSet, recordGet]
  | cons e r ih =>
    by_cases h : e.1 = k
    · simp [recordSet, recordGet, h]
    · simp only [recordSet, List.any_cons] at *
      by_cases hr : r.any (fun e => decide (e.1 = k))
      · simp [recordSet, recordGet, h, hr] at ih ⊢
        exact ih
      · simp [recordSet, recordGet, h, hr] at ih ⊢
        exact ih

theorem recordSet_length {α β : Type} [DecidableEq α]
    (r : List (α × β)) (k : α) (v : β) :
    (recordSet r k v).length =
      if r.any (fun e => e.1 = k) then r.length else r.length + 1 := by
  by_cases h : r.any (fun e => e.1 = k) <;> simp [recordSet, h]

/-- C10: a method carrying a strict deprecation annotation throws before
any network activity: the call settles as a rejection with the
deprecation message and the bound transport's dispatch count stays
zero. -/
theorem deprecated_strict_no_dispatch (ann : MethodAnnotations) (meta : MethodMetadata)
    (basePath baseURL : Option String) (args : List JSValue) (devMode : Bool)
    (transport : Nat → AxiosRequestConfig → TransportResult)
    (d : DeprecatedMetadata) (hd : ann.deprecated = some d) (hs : d.strict = true) :
    executeRequest ann meta basePath baseURL args devMode transport =
      (.err (.thrown (deprecatedMessage meta.propertyKey d)), 0) := by
  simp [executeRequest, hd, hs]

theorem deprecated_strict_no_dispatch_witness :
    executeRequest
      { bareAnnotations [] with
          deprecated := some ⟨some "This endpoint has been removed", true⟩ }
      ⟨"GET", "/removed-endpoint", "getRemovedData"⟩ none none [] true
      (fun _ _ => .failure (.netErr "unreachable")) =
      (.err (.thrown "This endpoint has been removed"), 0) :=
  deprecated_strict_no_dispatch _ _ _ _ _ _ _
    ⟨some "This endpoint has been removed", true⟩ rfl rfl

/-- C1: with a mock annotation that has no enabled-override, in
development mode (so the enabled-predicate default is true) and with no
strict-deprecation gate, a call whose parameter routing succeeds settles
as the mock's configured payload and status wrapped as a Response
Envelope, and the bound transport is never invoked (dispatch count 0).
The mock pipeline step is modelled from the spec, see
`mockShortCircuit`. -/
theorem mock_short_circuit_returns_payload (ann : MethodAnnotations)
    (meta : MethodMetadata) (basePath baseURL : Option String) (args : List JSValue)
    (transport : Nat → AxiosRequestConfig → TransportResult)
    (m : MockOptions) (req : AssembledRequest)
    (hm : ann.mock = some m) (hen : m.enabled = none) (hdep : ann.deprecated = none)
    (hok : assembleRequest meta ann.parameters ann.formUrlEncoded basePath baseURL args
            = .ok req) :
    executeRequest ann meta basePath baseURL args true transport =
      (.ok { data := m.data.eval, status := m.status.getD 200, headers := [] }, 0) := by
  simp [executeRequest, hdep, hok, mockShortCircuit, hm, hen]

theorem mock_short_circuit_returns_payload_witness :
    executeRequest
      { bareAnnotations [] with
          mock := some ⟨.static (.obj [("id", .num 1)]), none, some 404, none⟩ }
      ⟨"GET", "/posts", "getPosts"⟩ (some "/api") none [] true
      (fun _ _ => .failure (.netErr "network down")) =
      (.ok ⟨.obj [("id", .num 1)], 404, []⟩, 0) :=
  mock_short_circuit_returns_payload _ _ _ _ _ _
    ⟨.static (.obj [("id", .num 1)]), none, some 404, none⟩
    ⟨"/api/posts", [], .undef, [], [], "/posts"⟩ rfl rfl rfl rfl

/-- C5: a method whose retry policy has attempts=3 (other options
defaulted by the decorator or set freely) and no error-handler
annotation, called against a transport that always rejects with a
503-status response, dispatches exactly 4 times (1 initial + 3 retries)
and then the final rejection propagates to the caller unchanged. -/
theorem retry_count_bound_503 (meta : MethodMetadata)
    (basePath baseURL : Option String) (delay backoff maxDelay : Option Nat) :
    executeRequest
      { bareAnnotations [] with
          retry := some (mkRetryConfig (some 3) delay backoff maxDelay none) }
      meta basePath baseURL [] true
      (fun _ _ => .failure (.respErr 503)) =
      (.err (.respErr 503), 4) := by
  simp [executeRequest, assembleRequest, processParams, mockShortCircuit, bareAnnotations,
        executeWithRetry, mkRetryConfig, defaultShouldRetry]

/-- C6: when the dispatch fails and an error-handler annotation is
present, the handler decides the settlement: a defined return value
becomes the Response Envelope, an undefined return yields the envelope
with undefined data, status 0 and empty headers, and a throw from the
handler propagates to the caller.  No retry is attempted in any of the
three cases (dispatch count stays 1). -/
theorem onerror_handler_semantics (cfg : Option RetryConfig)
    (beforeRequest : Option (AxiosRequestConfig → AxiosRequestConfig))
    (afterResponse : Option (AxiosResponse → AxiosResponse))
    (transformFn : Option (JSValue → JSValue))
    (handler : JSError → HandlerResult) (e : JSError)
    (baseConfig : AxiosRequestConfig)
    (transport : Nat → AxiosRequestConfig → TransportResult)
    (hfail : ∀ rc, transport 0 rc = .failure e) :
    executeWithRetry cfg beforeRequest afterResponse (some handler) transformFn
      baseConfig transport 0 0 =
      (match handler e with
       | .retVal r => (.ok r, 1)
       | .retUndef => (.ok { data := .undef, status := 0, headers := [] }, 1)
       | .thrw e2 => (.err e2, 1)) := by
  rw [executeWithRetry.eq_def]
  simp [hfail]

theorem onerror_handler_semantics_witness :
    executeWithRetry none none none
      (some (fun err => match err with
        | .respErr s =>
          if s = 404 then HandlerResult.retVal ⟨.str "fallback", 200, []⟩
          else HandlerResult.retUndef
        | _ => HandlerResult.thrw (.thrown "boom")))
      none ⟨"GET", "/todos", [], .undef⟩
      (fun _ _ => .failure (.respErr 404)) 0 0 =
      (.ok ⟨.str "fallback", 200, []⟩, 1) :=
  onerror_handler_semantics _ _ _ _ _ _ _ _ (fun _ => rfl)

theorem recordGet_mem {α β : Type} [DecidableEq α] {r : List (α × β)} {k : α} {v : β}
    (h : recordGet r k = some v) : (k, v) ∈ r := by
  unfold recordGet at h
  rcases Option.map_eq_some'.mp h with ⟨e, he, hev⟩
  have h0 := List.find?_some he
  have h1 : e.1 = k := by simpa using h0
  have h2 := List.mem_of_find?_eq_some he
  obtain ⟨e1, e2⟩ := e
  cases h1
  cases hev
  exact h2

/-- C7: under the latest-wins strategy, issuing call A and then call B in
immediate succession on the same method of the same instance leaves A's
cancellation signal aborted and B's signal unaborted, from any
well-formed state of the controller store. -/
theorem latest_wins_abort_ordering (st : CancelState) (inst : Nat) (k : String)
    (hwf : st.wf) :
    (getAbortController st inst k .latest).2 ∈
      (getAbortController (getAbortController st inst k .latest).1 inst k .latest).1.aborted ∧
    (getAbortController (getAbortController st inst k .latest).1 inst k .latest).2 ∉
      (getAbortController (getAbortController st inst k .latest).1 inst k .latest).1.aborted := by
  obtain ⟨hwa, hwe⟩ := hwf
  cases hg : recordGet st.entries (inst, k) with
  | none =>
    refine ⟨?_, ?_⟩ <;>
      simp [getAbortController, hg, recordGet_set_self]
    intro hmem
    exact absurd (hwa _ hmem) (by omega)
  | some c =>
    have hc : c < st.nextId := hwe _ (recordGet_mem hg)
    refine ⟨?_, ?_⟩ <;>
      simp [getAbortController, hg, recordGet_set_self]
    refine ⟨by omega, ?_⟩
    intro hmem
    exact absurd (hwa _ hmem) (by omega)

theorem latest_wins_abort_ordering_witness :
    (getAbortController initialCancelState 0 "searchUsers" .latest).2 ∈
      (getAbortController (getAbortController initialCancelState 0 "searchUsers" .latest).1
        0 "searchUsers" .latest).1.aborted ∧
    (getAbortController (getAbortController initialCancelState 0 "searchUsers" .latest).1
        0 "searchUsers" .latest).2 ∉
      (getAbortController (getAbortController initialCancelState 0 "searchUsers" .latest).1
        0 "searchUsers" .latest).1.aborted :=
  latest_wins_abort_ordering initialCancelState 0 "searchUsers"
    ⟨by simp [initialCancelState], by simp [initialCancelState]⟩

/-- C8 counterexample: two allow-all calls on the same (instance, method)
key leave the registry with exactly one entry — the most recent handle —
not two accumulated handles: `Map.set` replaces the prior entry (though
it aborts nothing). -/
theorem allow_all_registry_counterexample :
    (getAbortController (getAbortController initialCancelState 0 "getUser" .all).1
        0 "getUser" .all).1.entries = [((0, "getUser"), 1)] ∧
    (getAbortController (getAbortController initialCancelState 0 "getUser" .all).1
        0 "getUser" .all).1.entries.length = 1 ∧
    (getAbortController (getAbortController initialCancelState 0 "getUser" .all).1
        0 "getUser" .all).1.aborted = [] := by
  refine ⟨rfl, rfl, rfl⟩

/-- C8 amended: under latest-wins a new call replaces the registry entry
for its (instance, method) key with the fresh handle and signals abort on
the prior handle; under allow-all a new call signals nothing (the aborted
set is untouched) but still replaces the registry entry for its key: the
registry keeps only the most recent handle per key, growing only when
the key is new. -/
theorem cancellation_registry_replacement (st : CancelState) (inst : Nat) (k : String) :
    (recordGet (getAbortController st inst k .latest).1.entries (inst, k) =
        some (getAbortController st inst k .latest).2 ∧
      ∀ c, recordGet st.entries (inst, k) = some c →
        c ∈ (getAbortController st inst k .latest).1.aborted) ∧
    ((getAbortController st inst k .all).1.aborted = st.aborted ∧
      recordGet (getAbortController st inst k .all).1.entries (inst, k) =
        some (getAbortController st inst k .all).2 ∧
      (getAbortController st inst k .all).1.entries.length =
        (if st.entries.any (fun e => e.1 = (inst, k)) then st.entries.length
          else st.entries.length + 1)) := by
  refine ⟨⟨?_, ?_⟩, ?_, ?_, ?_⟩
  · cases hg : recordGet st.entries (inst, k) <;>
      simp [getAbortController, hg, recordGet_set_self]
  · intro c hg
    simp [getAbortController, hg]
  · simp [getAbortController]
  · simp [getAbortController, recordGet_set_self]
  · simp [getAbortController, recordSet_length]

theorem cancellation_registry_replacement_witness :
    (recordGet (getAbortController initialCancelState 3 "load" .latest).1.entries (3, "load") =
        some (getAbortController initialCancelState 3 "load" .latest).2 ∧
      ∀ c, recordGet initialCancelState.entries (3, "load") = some c →
        c ∈ (getAbortController initialCancelState 3 "load" .latest).1.aborted) ∧
    ((getAbortController initialCancelState 3 "load" .all).1.aborted =
        initialCancelState.aborted ∧
      recordGet (getAbortController initialCancelState 3 "load" .all).1.entries (3, "load") =
        some (getAbortController initialCancelState 3 "load" .all).2 ∧
      (getAbortController initialCancelState 3 "load" .all).1.entries.length =
        (if initialCancelState.entries.any (fun e => e.1 = (3, "load")) then
            initialCancelState.entries.length
          else initialCancelState.entries.length + 1)) :=
  cancellation_registry_replacement initialCancelState 3 "load"

/-- C2 (refuting the claim): `initializeRoutes` installs the decorated
method's wrapper on the class's shared prototype with `this` lexically
captured; constructing a second instance of the same class re-installs
the wrapper capturing the second instance, so a later call on the first
instance dispatches through the second instance's transport.  Concretely
(with `transportOf i = 10 * i`): instance 1 is bound to transport 10 and
instance 2 to transport 20, yet after both constructions a call received
by instance 1 goes through transport 20, not its own transport 10. -/
theorem prototype_rebinding_uses_latest_transport :
    methodCallTransport
        (restifyConstructor (restifyConstructor ⟨none⟩ 1) 2) 1 (fun i => 10 * i) =
      some 20 ∧
    methodCallTransport
        (restifyConstructor (restifyConstructor ⟨none⟩ 1) 2) 1 (fun i => 10 * i) ≠
      some 10 := by
  refine ⟨rfl, by decide⟩

theorem mem_recordSet {α β : Type} [DecidableEq α] {r : List (α × β)} {k : α} {v : β}
    {e : α × β} (he : e ∈ recordSet r k v) : e ∈ r ∨ e = (k, v) := by
  unfold recordSet at he
  by_cases h : r.any (fun e => e.1 = k)
  · rw [if_pos h] at he
    rcases List.mem_map.mp he with ⟨x, hx, hfx⟩
    by_cases hxk : x.1 = k
    · rw [if_pos hxk] at hfx
      exact Or.inr hfx.symm
    · rw [if_neg hxk] at hfx
      exact Or.inl (hfx ▸ hx)
  · rw [if_neg h] at he
    rcases List.mem_append.mp he with h1 | h1
    · exact Or.inl h1
    · exact Or.inr (List.mem_singleton.mp h1)

theorem mem_foldl_queryMerge (entries : List (String × JSValue)) :
    ∀ (qp : List (String × JSValue)) (e : String × JSValue),
      e ∈ entries.foldl
        (fun qp kv => if !kv.2.isUndef && !kv.2.isNull then recordSet qp kv.1 kv.2 else qp)
        qp →
      e ∈ qp ∨ (e ∈ entries ∧ e.2.isUndef = false ∧ e.2.isNull = false) := by
  induction entries with
  | nil =>
    intro qp e he
    exact Or.inl he
  | cons kv entries ih =>
    intro qp e he
    simp only [List.foldl_cons] at he
    rcases ih _ e he with h1 | ⟨h1, h2⟩
    · by_cases hg : (!kv.2.isUndef && !kv.2.isNull) = true
      · rw [if_pos hg] at h1
        rcases mem_recordSet h1 with h2 | h2
        · exact Or.inl h2
        · obtain ⟨hu, hn⟩ := Bool.and_eq_true _ _ |>.mp hg
          refine Or.inr ⟨?_, ?_, ?_⟩
          · rw [h2]
            exact List.mem_cons_self _ _
          · rw [h2]
            simpa using hu
          · rw [h2]
            simpa using hn
      · rw [if_neg hg] at h1
        exact Or.inl h1
    · exact Or.inr ⟨List.mem_cons_of_mem _ h1, h2⟩

theorem processParam_queryParams_sound (args : List JSValue) (st : ParamState)
    (p : ParameterMetadata) (st' : ParamState)
    (h : processParam args st p = .ok st') :
    ∀ kv ∈ st'.queryParams,
      kv ∈ st.queryParams ∨
      (kv.2.isUndef = false ∧
        (kv.2.isNull = false ∨ (p.type = .query ∧ kv.2 = args.getD p.index .undef))) := by
  intro kv hkv
  cases hp : p.type
  case query =>
    cases hk : p.key with
    | none =>
      simp only [processParam, hp, hk, Except.ok.injEq] at h
      exact Or.inl (h ▸ hkv)
    | some k =>
      simp only [processParam, hp, hk] at h
      by_cases hg : (k ≠ "" && !(args.getD p.index .undef).isUndef) = true
      · rw [if_pos hg] at h
        obtain ⟨-, hu⟩ := Bool.and_eq_true _ _ |>.mp hg
        cases h
        rcases mem_recordSet hkv with h1 | h1
        · exact Or.inl h1
        · rw [h1]
          exact Or.inr ⟨by simpa using hu, Or.inr ⟨rfl, rfl⟩⟩
      · rw [if_neg hg] at h
        cases h
        exact Or.inl hkv
  case queryMap =>
    simp only [processParam, hp] at h
    by_cases hu : (args.getD p.index .undef).isUndef = true
    · rw [if_pos hu] at h
      cases h
      exact Or.inl hkv
    · rw [if_neg hu] at h
      by_cases hn : (args.getD p.index .undef).isNull = true
      · rw [if_pos hn] at h
        cases h
      · rw [if_neg hn] at h
        cases h
        rcases mem_foldl_queryMerge _ _ _ hkv with h1 | ⟨-, h2, h3⟩
        · exact Or.inl h1
        · exact Or.inr ⟨h2, Or.inl h3⟩
  case path =>
    cases hk : p.key with
    | none =>
      simp only [processParam, hp, hk, Except.ok.injEq] at h
      exact Or.inl (h ▸ hkv)
    | some k =>
      simp only [processParam, hp, hk] at h
      by_cases hg : (k ≠ "" && !(args.getD p.index .undef).isUndef) = true
      · rw [if_pos hg] at h
        cases h
        exact Or.inl hkv
      · rw [if_neg hg] at h
        cases h
        exact Or.inl hkv
  case body =>
    simp only [processParam, hp, Except.ok.injEq] at h
    cases h
    exact Or.inl hkv
  case header =>
    cases hk : p.key with
    | none =>
      simp only [processParam, hp, hk, Except.ok.injEq] at h
      exact Or.inl (h ▸ hkv)
    | some k =>
      simp only [processParam, hp, hk] at h
      by_cases hg : (k ≠ "" && !(args.getD p.index .undef).isUndef) = true
      · rw [if_pos hg] at h
        cases h
        exact Or.inl hkv
      · rw [if_neg hg] at h
        cases h
        exact Or.inl hkv
  case field =>
    cases hk : p.key with
    | none =>
      simp only [processParam, hp, hk, Except.ok.injEq] at h
      exact Or.inl (h ▸ hkv)
    | some k =>
      simp only [processParam, hp, hk] at h
      by_cases hg : (k ≠ "" && !(args.getD p.index .undef).isUndef) = true
      · rw [if_pos hg] at h
        cases h
        exact Or.inl hkv
      · rw [if_neg hg] at h
        cases h
        exact Or.inl hkv
  case uploadProgress =>
    simp only [processParam, hp, Except.ok.injEq] at h
    exact Or.inl (h ▸ hkv)
  case downloadProgress =>
    simp only [processParam, hp, Except.ok.injEq] at h
    exact Or.inl (h ▸ hkv)

theorem processParams_queryParams_sound (args : List JSValue) :
    ∀ (ps : List ParameterMetadata) (st st' : ParamState),
      processParams args ps st = .ok st' →
      ∀ kv ∈ st'.queryParams,
        kv ∈ st.queryParams ∨
        (kv.2.isUndef = false ∧
          (kv.2.isNull = false ∨
            ∃ p ∈ ps, p.type = .query ∧ kv.2 = args.getD p.index .undef)) := by
  intro ps
  induction ps with
  | nil =>
    intro st st' h kv hkv
    simp only [processParams, Except.ok.injEq] at h
    exact Or.inl (h ▸ hkv)
  | cons p ps ih =>
    intro st st' h kv hkv
    simp only [processParams] at h
    cases hp : processParam args st p with
    | error e =>
      rw [hp] at h
      cases h
    | ok st1 =>
      rw [hp] at h
      rcases ih st1 st' h kv hkv with h1 | ⟨hu, h2⟩
      · rcases processParam_queryParams_sound args st p st1 hp kv h1 with h3 | ⟨hu, h3⟩
        · exact Or.inl h3
        · rcases h3 with h3 | ⟨hq, hv⟩
          · exact Or.inr ⟨hu, Or.inl h3⟩
          · exact Or.inr ⟨hu, Or.inr ⟨p, List.mem_cons_self _ _, hq, hv⟩⟩
      · rcases h2 with h2 | ⟨q, hq, hq2⟩
        · exact Or.inr ⟨hu, Or.inl h2⟩
        · exact Or.inr ⟨hu, Or.inr ⟨q, List.mem_cons_of_mem _ hq, hq2⟩⟩

/-- C3 amended: an `undefined` value never enters the query record,
whether bound by `@Query` or merged from a `@QueryMap`; a `null` value
merged from a `@QueryMap` is also skipped; but a single `@Query` binding
checks only for `undefined`, so a `null` value in the final query record
can arise (exactly) from a `@Query` binding whose argument was `null`.
The spec's example holds: calling with name "John" and age `undefined`
yields the query string `name=John`, and `age` does not occur in the
final URL. -/
theorem query_skip_semantics :
    (∀ (args : List JSValue) (ps : List ParameterMetadata) (path : String)
        (st' : ParamState),
        processParams args ps (initParamState path) = .ok st' →
        ∀ kv ∈ st'.queryParams, kv.2.isUndef = false) ∧
    (∀ (args : List JSValue) (ps : List ParameterMetadata) (path : String)
        (st' : ParamState),
        processParams args ps (initParamState path) = .ok st' →
        (∀ p ∈ ps, p.type = .query → (args.getD p.index .undef).isNull = false) →
        ∀ kv ∈ st'.queryParams, kv.2.isNull = false) ∧
    (assembleRequest ⟨"GET", "/users", "getUsers"⟩
        (declaredParameters [⟨0, .query, some "name"⟩, ⟨1, .query, some "age"⟩])
        false none none [.str "John", .undef]).map (fun r => r.finalURL) =
      .ok "/users?name=John" ∧
    splitFirstL "age".data "/users?name=John".data = none := by
  refine ⟨?_, ?_, rfl, by decide⟩
  · intro args ps path st' h kv hkv
    rcases processParams_queryParams_sound args ps _ _ h kv hkv with h1 | ⟨hu, -⟩
    · simp [initParamState] at h1
    · exact hu
  · intro args ps path st' h hq kv hkv
    rcases processParams_queryParams_sound args ps _ _ h kv hkv with h1 | ⟨-, h2⟩
    · simp [initParamState] at h1
    · rcases h2 with h2 | ⟨p, hp, hptype, hveq⟩
      · exact h2
      · rw [hveq]
        exact hq p hp hptype

theorem query_skip_semantics_witness :
    (JSValue.str "John").isUndef = false ∧ (JSValue.str "John").isNull = false :=
  ⟨query_skip_semantics.1 [JSValue.str "John", .undef]
      (declaredParameters [⟨0, .query, some "name"⟩, ⟨1, .query, some "age"⟩]) "/users"
      ⟨"/users", [("name", .str "John")], [], [], .undef⟩ rfl ("name", .str "John")
      (List.mem_singleton.mpr rfl),
    query_skip_semantics.2.1 [JSValue.str "John", .undef]
      (declaredParameters [⟨0, .query, some "name"⟩, ⟨1, .query, some "age"⟩]) "/users"
      ⟨"/users", [("name", .str "John")], [], [], .undef⟩ rfl (by decide)
      ("name", .str "John") (List.mem_singleton.mpr rfl)⟩

/-- C3 counterexample: a single `@Query("age")` binding called with
`null` DOES put `age` into the final URL's query string, as `age=null`:
the single-query guard (Restify.ts line 123) tests only
`value !== undefined`. -/
theorem query_null_counterexample :
    (assembleRequest ⟨"GET", "/users", "getUsers"⟩ [⟨0, .query, some "age"⟩]
        false none none [.null]).map (fun r => r.finalURL) = .ok "/users?age=null" ∧
    splitFirstL "age=null".data "/users?age=null".data ≠ none := by
  exact ⟨rfl, by decide⟩

/-- C4 amended: a form-url-encoded POST with two fields declared in the
order email then password produces the body with the fields in REVERSE
declaration order, `password=<enc>&email=<enc>`: TypeScript applies
parameter decorators from the last parameter to the first, so the stored
metadata array — and hence the record insertion order serialized by
`URLSearchParams` — is reversed.  The Content-Type request header is
`application/x-www-form-urlencoded` as claimed, and both fields are
form-url-encoded. -/
theorem form_body_reverse_declaration_order (email password : String) :
    (assembleRequest ⟨"POST", "/login", "login"⟩
        (declaredParameters [⟨0, .field, some "email"⟩, ⟨1, .field, some "password"⟩])
        true none none [.str email, .str password]).map
        (fun r => (r.body, recordGet r.headers "Content-Type")) =
      .ok (.str (("password=" ++ formEncode password ++ "&") ++
                  ("email=" ++ formEncode email)),
           some "application/x-www-form-urlencoded") :=
  rfl

/-- C4 counterexample: with email "a@b.com" and password "secret" the
produced body is `password=secret&email=a%40b.com`, not the claimed
`email=a%40b.com&password=secret`; the Content-Type header does match
the claim. -/
theorem form_body_order_counterexample :
    (assembleRequest ⟨"POST", "/login", "login"⟩
        (declaredParameters [⟨0, .field, some "email"⟩, ⟨1, .field, some "password"⟩])
        true none none [.str "a@b.com", .str "secret"]).map
        (fun r => (r.body, recordGet r.headers "Content-Type")) =
      .ok (.str "password=secret&email=a%40b.com",
           some "application/x-www-form-urlencoded") ∧
    "password=secret&email=a%40b.com" ≠ "email=a%40b.com&password=secret" := by
  exact ⟨rfl, by decide⟩

theorem isPrefixOf_iff (a : List Char) : ∀ b : List Char,
    a.isPrefixOf b = true ↔ ∃ t, b = a ++ t := by
  induction a with
  | nil =>
    intro b
    simp [List.isPrefixOf]
  | cons x xs ih =>
    intro b
    cases b with
    | nil => simp [List.isPrefixOf]
    | cons y ys =>
      simp only [List.isPrefixOf, Bool.and_eq_true, beq_iff_eq, ih, List.cons_append,
        List.cons.injEq]
      constructor
      · rintro ⟨rfl, t, rfl⟩
        exact ⟨t, rfl, rfl⟩
      · rintro ⟨t, rfl, rfl⟩
        exact ⟨rfl, t, rfl⟩




theorem splitFirstL_cons_neg {pat : List Char} {c : Char} {rest : List Char}
    (h : pat.isPrefixOf (c :: rest) = false) :
    splitFirstL pat (c :: rest) =
      (splitFirstL pat rest).map (fun pr => (c :: pr.1, pr.2)) := by
  simp only [splitFirstL]
  rw [if_neg (by simp [h])]

theorem splitFirstL_append_of_colonFree (k : List Char) (a : List Char)
    (ha : ':' ∉ a) : ∀ b : List Char,
    splitFirstL (':' :: k) (a ++ b) =
      (splitFirstL (':' :: k) b).map (fun pr => (a ++ pr.1, pr.2)) := by
  induction a with
  | nil =>
    intro b
    simp only [List.nil_append]
    cases h : splitFirstL (':' :: k) b <;> simp
  | cons c a ih =>
    intro b
    have hc : (':' :: k).isPrefixOf (c :: (a ++ b)) = false := by
      cases hx : (':' :: k).isPrefixOf (c :: (a ++ b)) with
      | false => rfl
      | true =>
        exfalso
        rcases (isPrefixOf_iff _ _).mp hx with ⟨t, ht⟩
        have hcc : c = ':' := (List.cons_eq_cons.mp ht).1
        exact ha (hcc ▸ List.mem_cons_self c a)
    have ha' : ':' ∉ a := fun h => ha (List.mem_cons_of_mem _ h)
    rw [List.cons_append, splitFirstL_cons_neg hc, ih ha' b]
    cases splitFirstL (':' :: k) b <;> simp

theorem splitFirstL_self (k rest : List Char) :
    splitFirstL (':' :: k) (':' :: k ++ rest) = some ([], rest) := by
  have hpre : (':' :: k).isPrefixOf (':' :: k ++ rest) = true := by
    rw [isPrefixOf_iff]
    exact ⟨rest, by simp⟩
  have hdrop : (':' :: (k ++ rest)).drop (k.length + 1) = rest := by
    simp [List.drop_left]
  simp [splitFirstL, hpre, hdrop]

theorem not_isPrefixOf_of_incomp {k k' : List Char} (h : keyIncomp k k')
    (rest : List Char) :
    (':' :: k).isPrefixOf (':' :: k' ++ rest) = false := by
  cases hx : (':' :: k).isPrefixOf (':' :: k' ++ rest) with
  | false => rfl
  | true =>
    exfalso
    rcases (isPrefixOf_iff _ _).mp hx with ⟨t, ht⟩
    have ht2 : k' ++ rest = k ++ t := by
      injection ht
    rcases List.append_eq_append_iff.mp ht2 with ⟨u, hu, -⟩ | ⟨u, hu, -⟩
    · have hk : k'.isPrefixOf k = true := (isPrefixOf_iff _ _).mpr ⟨u, hu⟩
      rw [h.2] at hk
      exact Bool.noConfusion hk
    · have hk : k.isPrefixOf k' = true := (isPrefixOf_iff _ _).mpr ⟨u, hu⟩
      rw [h.1] at hk
      exact Bool.noConfusion hk



theorem getSubstitution_no_dollar :
    ∀ v : List Char, Char.ofNat 36 ∉ v →
      ∀ matched pre post : List Char, getSubstitution matched pre post v = v := by
  intro v
  induction v with
  | nil =>
    intro _ _ _ _
    rfl
  | cons c rest ih =>
    intro hv matched pre post
    have hc : ¬ c = Char.ofNat 36 := fun h => hv (h ▸ List.mem_cons_self _ _)
    have hrest : Char.ofNat 36 ∉ rest := fun h => hv (List.mem_cons_of_mem _ h)
    rw [show getSubstitution matched pre post (c :: rest) =
        c :: getSubstitution matched pre post rest from by
      rw [getSubstitution.eq_def]
      dsimp only
      rw [if_neg hc]]
    rw [ih hrest matched pre post]

/-- Sanity check of the `GetSubstitution` semantics: a path value equal
to dollar ampersand re-inserts the matched placeholder, so the template
`/:a` resolves to `/:a` — the case that forces the dollar-freeness
proviso of the amended resolution theorem below. -/
theorem jsReplaceFirst_dollar_matched : jsReplaceFirst "/:a" ":a" "$&" = "/:a" := by
  decide

theorem replaceFirstL_append_colonFree {a : List Char} (k v b : List Char)
    (ha : ':' ∉ a) (hv : Char.ofNat 36 ∉ v) :
    replaceFirstL (a ++ b) (':' :: k) v = a ++ replaceFirstL b (':' :: k) v := by
  unfold replaceFirstL
  rw [splitFirstL_append_of_colonFree k a ha b]
  cases splitFirstL (':' :: k) b <;> simp [getSubstitution_no_dollar _ hv]

theorem replaceFirstL_self_hole (k v rest : List Char) (hv : Char.ofNat 36 ∉ v) :
    replaceFirstL (':' :: k ++ rest) (':' :: k) v = v ++ rest := by
  unfold replaceFirstL
  rw [splitFirstL_self]
  simp [getSubstitution_no_dollar _ hv]

theorem replaceFirstL_other_hole {k k' : List Char} (v rest : List Char)
    (h : keyIncomp k k') (hk' : ':' ∉ k') (hv : Char.ofNat 36 ∉ v) :
    replaceFirstL (':' :: k' ++ rest) (':' :: k) v =
      ':' :: k' ++ replaceFirstL rest (':' :: k) v := by
  have h0 : (':' :: k).isPrefixOf (':' :: (k' ++ rest)) = false :=
    not_isPrefixOf_of_incomp h rest
  have h1 : splitFirstL (':' :: k) (':' :: (k' ++ rest)) =
      (splitFirstL (':' :: k) (k' ++ rest)).map (fun pr => (':' :: pr.1, pr.2)) :=
    splitFirstL_cons_neg h0
  unfold replaceFirstL
  rw [show (':' :: k' ++ rest : List Char) = ':' :: (k' ++ rest) from rfl, h1,
    splitFirstL_append_of_colonFree k k' hk' rest]
  cases splitFirstL (':' :: k) rest <;> simp [getSubstitution_no_dollar _ hv]



theorem replaceFirstL_renderChunks {k : List Char} (v : List Char)
    (hv : Char.ofNat 36 ∉ v) :
    ∀ cs : List Chunk,
      (∀ c ∈ cs, chunkColonFree c) →
      k ∈ chunkHoles cs →
      (∀ k' ∈ chunkHoles cs, k' ≠ k → keyIncomp k k') →
      replaceFirstL (renderChunks cs) (':' :: k) v = renderChunks (substHole cs k v) := by
  intro cs
  induction cs with
  | nil =>
    intro _ hk _
    exact absurd hk (by simp [chunkHoles])
  | cons c cs ih =>
    intro hfree hk hcomp
    match c with
    | .lit s =>
      have hs : ':' ∉ s := hfree (.lit s) (List.mem_cons_self _ _)
      have hk' : k ∈ chunkHoles cs := hk
      rw [show renderChunks (Chunk.lit s :: cs) = s ++ renderChunks cs from rfl,
        replaceFirstL_append_colonFree k v (renderChunks cs) hs hv,
        ih (fun c hc => hfree c (List.mem_cons_of_mem _ hc)) hk'
          (fun k' h1 h2 => hcomp k' h1 h2)]
      rfl
    | .hole k' =>
      by_cases hkk : k' = k
      · subst hkk
        rw [show renderChunks (Chunk.hole k' :: cs) = ':' :: k' ++ renderChunks cs from rfl,
          replaceFirstL_self_hole k' v (renderChunks cs) hv]
        simp [substHole, renderChunks]
      · have hinc : keyIncomp k k' :=
          hcomp k' (by simp [chunkHoles]) hkk
        have hck' : ':' ∉ k' := hfree (.hole k') (List.mem_cons_self _ _)
        have hkmem : k ∈ chunkHoles cs := by
          rcases List.mem_cons.mp (show k ∈ k' :: chunkHoles cs from hk) with h | h
          · exact absurd h.symm hkk
          · exact h
        rw [show renderChunks (Chunk.hole k' :: cs) = ':' :: k' ++ renderChunks cs from rfl,
          replaceFirstL_other_hole v (renderChunks cs) hinc hck' hv,
          ih (fun c hc => hfree c (List.mem_cons_of_mem _ hc)) hkmem
            (fun x h1 h2 => hcomp x (List.mem_cons_of_mem _ h1) h2)]
        simp [substHole, hkk, renderChunks]



theorem chunkHoles_substHole (k v : List Char) :
    ∀ cs : List Chunk, chunkHoles (substHole cs k v) = (chunkHoles cs).erase k := by
  intro cs
  induction cs with
  | nil => simp [substHole, chunkHoles]
  | cons c cs ih =>
    match c with
    | .lit s => simpa [substHole, chunkHoles] using ih
    | .hole k' =>
      by_cases hkk : k' = k
      · subst hkk
        simp [substHole, chunkHoles, List.erase_cons_head]
      · rw [show substHole (Chunk.hole k' :: cs) k v = .hole k' :: substHole cs k v by
          simp [substHole, hkk]]
        rw [show chunkHoles (Chunk.hole k' :: substHole cs k v) =
            k' :: chunkHoles (substHole cs k v) from rfl]
        rw [show chunkHoles (Chunk.hole k' :: cs) = k' :: chunkHoles cs from rfl]
        rw [List.erase_cons_tail (by simpa using hkk), ih]

theorem chunkColonFree_substHole {k v : List Char} (hv : ':' ∉ v) :
    ∀ cs : List Chunk, (∀ c ∈ cs, chunkColonFree c) →
      ∀ c ∈ substHole cs k v, chunkColonFree c := by
  intro cs
  induction cs with
  | nil =>
    intro _ c hc
    simp [substHole] at hc
  | cons c0 cs ih =>
    intro hfree c hc
    match c0 with
    | .lit s =>
      rcases List.mem_cons.mp hc with h | h
      · rw [h]
        exact hfree (.lit s) (List.mem_cons_self _ _)
      · exact ih (fun x hx => hfree x (List.mem_cons_of_mem _ hx)) c h
    | .hole k' =>
      by_cases hkk : k' = k
      · subst hkk
        rw [show substHole (Chunk.hole k' :: cs) k' v = .lit v :: cs from by
          simp [substHole]] at hc
        rcases List.mem_cons.mp hc with h | h
        · rw [h]
          exact hv
        · exact hfree c (List.mem_cons_of_mem _ h)
      · rw [show substHole (Chunk.hole k' :: cs) k v = .hole k' :: substHole cs k v from by
          simp [substHole, hkk]] at hc
        rcases List.mem_cons.mp hc with h | h
        · rw [h]
          exact hfree (.hole k') (List.mem_cons_self _ _)
        · exact ih (fun x hx => hfree x (List.mem_cons_of_mem _ hx)) c h

theorem renderChunks_colonFree :
    ∀ cs : List Chunk, (∀ c ∈ cs, chunkColonFree c) → chunkHoles cs = [] →
      ':' ∉ renderChunks cs := by
  intro cs
  induction cs with
  | nil =>
    intro _ _
    simp [renderChunks]
  | cons c cs ih =>
    intro hfree hh
    match c with
    | .lit s =>
      rw [show renderChunks (Chunk.lit s :: cs) = s ++ renderChunks cs from rfl]
      intro hmem
      rcases List.mem_append.mp hmem with h | h
      · exact hfree (.lit s) (List.mem_cons_self _ _) h
      · exact ih (fun x hx => hfree x (List.mem_cons_of_mem _ hx)) hh h
    | .hole k =>
      exact absurd hh (by simp [chunkHoles])

theorem listErase_beq_congr (k : List Char) :
    ∀ l : List (List Char),
      @List.erase _ List.instBEq l k = @List.erase _ instBEqOfDecidableEq l k := by
  intro l
  induction l with
  | nil => rfl
  | cons x l ih =>
    by_cases hxk : x = k <;>
      simp [List.erase_cons, hxk, ih]

theorem substAll_colonFree :
    ∀ (subs : List (List Char × List Char)) (cs : List Chunk),
      (∀ c ∈ cs, chunkColonFree c) →
      (∀ kv ∈ subs, ':' ∉ kv.2 ∧ Char.ofNat 36 ∉ kv.2) →
      (chunkHoles cs).Perm (subs.map Prod.fst) →
      (subs.map Prod.fst).Pairwise keyIncomp →
      ':' ∉ substAll subs (renderChunks cs) := by
  intro subs
  induction subs with
  | nil =>
    intro cs hfree _ hperm _
    have hperm2 : (chunkHoles cs).Perm [] := by simpa using hperm
    exact renderChunks_colonFree cs hfree hperm2.eq_nil
  | cons kv subs ih =>
    intro cs hfree hvals hperm hpair
    have hkmem : kv.1 ∈ chunkHoles cs := hperm.mem_iff.mpr (by simp)
    have hcomp : ∀ k' ∈ chunkHoles cs, k' ≠ kv.1 → keyIncomp kv.1 k' := by
      intro k' hk' hne
      have : k' ∈ kv.1 :: subs.map Prod.fst := hperm.mem_iff.mp hk'
      rcases List.mem_cons.mp this with h | h
      · exact absurd h hne
      · exact (List.pairwise_cons.mp hpair).1 k' h
    have hstep := replaceFirstL_renderChunks kv.2
      (hvals kv (List.mem_cons_self _ _)).2 cs hfree hkmem hcomp
    rw [show substAll (kv :: subs) (renderChunks cs) =
        substAll subs (replaceFirstL (renderChunks cs) (':' :: kv.1) kv.2) from rfl,
      hstep]
    refine ih (substHole cs kv.1 kv.2)
      (chunkColonFree_substHole (hvals kv (List.mem_cons_self _ _)).1 cs hfree)
      (fun x hx => hvals x (List.mem_cons_of_mem _ hx)) ?_ (List.pairwise_cons.mp hpair).2
    rw [chunkHoles_substHole, listErase_beq_congr]
    have := hperm.erase kv.1
    simpa [List.erase_cons_head] using this



theorem processParam_url_cases (args : List JSValue) (st : ParamState)
    (p : ParameterMetadata) (st' : ParamState)
    (h : processParam args st p = .ok st') :
    (st'.url = st.url ∧
      (p.type = .path →
        ∀ k, p.key = some k →
          (k ≠ "" && !(args.getD p.index .undef).isUndef) = false)) ∨
    (∃ k, p.type = .path ∧ p.key = some k ∧
      (k ≠ "" && !(args.getD p.index .undef).isUndef) = true ∧
      st'.url = jsReplaceFirst st.url (":" ++ k) (jsToString (args.getD p.index .undef))) := by
  cases hpt : p.type
  case path =>
    cases hk : p.key with
    | none =>
      simp only [processParam, hpt, hk, Except.ok.injEq] at h
      subst h
      exact Or.inl ⟨rfl, fun _ k hk2 => by cases hk2⟩
    | some k =>
      by_cases hg : (k ≠ "" && !(args.getD p.index .undef).isUndef) = true
      · simp only [processParam, hpt, hk, if_pos hg, Except.ok.injEq] at h
        subst h
        exact Or.inr ⟨k, rfl, rfl, hg, rfl⟩
      · simp only [processParam, hpt, hk, if_neg hg, Except.ok.injEq] at h
        subst h
        refine Or.inl ⟨rfl, fun _ k2 hk2 => ?_⟩
        injection hk2 with hk3
        subst hk3
        cases hb : (k ≠ "" && !(args.getD p.index .undef).isUndef) with
        | false => rfl
        | true => exact absurd hb hg
  case query =>
    cases hk : p.key with
    | none =>
      simp only [processParam, hpt, hk, Except.ok.injEq] at h
      subst h
      exact Or.inl ⟨rfl, fun hq => by cases hq⟩
    | some k =>
      by_cases hg : (k ≠ "" && !(args.getD p.index .undef).isUndef) = true
      · simp only [processParam, hpt, hk, if_pos hg, Except.ok.injEq] at h
        subst h
        exact Or.inl ⟨rfl, fun hq => by cases hq⟩
      · simp only [processParam, hpt, hk, if_neg hg, Except.ok.injEq] at h
        subst h
        exact Or.inl ⟨rfl, fun hq => by cases hq⟩
  case queryMap =>
    by_cases hu : (args.getD p.index .undef).isUndef = true
    · simp only [processParam, hpt, if_pos hu, Except.ok.injEq] at h
      subst h
      exact Or.inl ⟨rfl, fun hq => by cases hq⟩
    · by_cases hn : (args.getD p.index .undef).isNull = true
      · simp only [processParam, hpt, if_neg hu, if_pos hn] at h
        cases h
      · simp only [processParam, hpt, if_neg hu, if_neg hn, Except.ok.injEq] at h
        subst h
        exact Or.inl ⟨rfl, fun hq => by cases hq⟩
  case body =>
    simp only [processParam, hpt, Except.ok.injEq] at h
    subst h
    exact Or.inl ⟨rfl, fun hq => by cases hq⟩
  case header =>
    cases hk : p.key with
    | none =>
      simp only [processParam, hpt, hk, Except.ok.injEq] at h
      subst h
      exact Or.inl ⟨rfl, fun hq => by cases hq⟩
    | some k =>
      by_cases hg : (k ≠ "" && !(args.getD p.index .undef).isUndef) = true
      · simp only [processParam, hpt, hk, if_pos hg, Except.ok.injEq] at h
        subst h
        exact Or.inl ⟨rfl, fun hq => by cases hq⟩
      · simp only [processParam, hpt, hk, if_neg hg, Except.ok.injEq] at h
        subst h
        exact Or.inl ⟨rfl, fun hq => by cases hq⟩
  case field =>
    cases hk : p.key with
    | none =>
      simp only [processParam, hpt, hk, Except.ok.injEq] at h
      subst h
      exact Or.inl ⟨rfl, fun hq => by cases hq⟩
    | some k =>
      by_cases hg : (k ≠ "" && !(args.getD p.index .undef).isUndef) = true
      · simp only [processParam, hpt, hk, if_pos hg, Except.ok.injEq] at h
        subst h
        exact Or.inl ⟨rfl, fun hq => by cases hq⟩
      · simp only [processParam, hpt, hk, if_neg hg, Except.ok.injEq] at h
        subst h
        exact Or.inl ⟨rfl, fun hq => by cases hq⟩
  case uploadProgress =>
    simp only [processParam, hpt, Except.ok.injEq] at h
    subst h
    exact Or.inl ⟨rfl, fun hq => by cases hq⟩
  case downloadProgress =>
    simp only [processParam, hpt, Except.ok.injEq] at h
    subst h
    exact Or.inl ⟨rfl, fun hq => by cases hq⟩

theorem processParams_url (args : List JSValue) :
    ∀ (ps : List ParameterMetadata) (st st' : ParamState),
      processParams args ps st = .ok st' →
      st'.url.data = substAll (pathSubsL args ps) st.url.data := by
  intro ps
  induction ps with
  | nil =>
    intro st st' h
    simp only [processParams, Except.ok.injEq] at h
    subst h
    rfl
  | cons p ps ih =>
    intro st st' h
    simp only [processParams] at h
    cases hp : processParam args st p with
    | error e =>
      rw [hp] at h
      cases h
    | ok st1 =>
      rw [hp] at h
      have hrec := ih st1 st' h
      rcases processParam_url_cases args st p st1 hp with ⟨hurl, hskip⟩ | ⟨k, hpt, hk, hg, hurl⟩
      · rw [hrec, hurl]
        cases hpt : p.type
        case path =>
          cases hk : p.key with
          | none => simp only [pathSubsL, hpt, hk]
          | some k =>
            rw [show pathSubsL args (p :: ps) =
                (if k ≠ "" && !(args.getD p.index .undef).isUndef then
                  (k.data, (jsToString (args.getD p.index .undef)).data) :: pathSubsL args ps
                else pathSubsL args ps) from by simp only [pathSubsL, hpt, hk]]
            rw [if_neg (by rw [hskip hpt k hk]; exact Bool.false_ne_true)]
        all_goals simp only [pathSubsL, hpt]
      · rw [hrec]
        rw [show pathSubsL args (p :: ps) =
            (k.data, (jsToString (args.getD p.index .undef)).data) :: pathSubsL args ps from by
          simp only [pathSubsL, hpt, hk, if_pos hg]]
        rw [show substAll ((k.data, (jsToString (args.getD p.index .undef)).data) ::
              pathSubsL args ps) st.url.data =
            substAll (pathSubsL args ps)
              (replaceFirstL st.url.data (':' :: k.data)
                (jsToString (args.getD p.index .undef)).data) from rfl]
        rw [hurl]
        have hdata : (jsReplaceFirst st.url (":" ++ k)
            (jsToString (args.getD p.index .undef))).data =
            replaceFirstL st.url.data (':' :: k.data)
              (jsToString (args.getD p.index .undef)).data := by
          have hpat : ((":" : String) ++ k).data = ':' :: k.data := by
            rw [String.data_append]
            rfl
          simp [jsReplaceFirst, hpat]
        rw [hdata]



/-- C9 amended: a path template that decomposes into colon-free literal
pieces and `n` distinct `:key` placeholders, called with a matching
defined path-bound argument for each key, resolves to a URL with zero
remaining `:` placeholder tokens (no colon at all) PROVIDED the keys are
pairwise prefix-incomparable and the substituted values contain neither
a colon nor a dollar sign.  Without prefix-incomparability the claim
fails (see the counterexample): `String.replace` replaces the first
occurrence, which can sit inside a longer placeholder.  And a value
containing a dollar escape can re-insert the matched placeholder: the
replacement string is a `GetSubstitution` template, so for example the
value consisting of dollar ampersand resolves `/:a` back to `/:a`. -/
theorem path_resolution_amended (cs : List Chunk) (params : List ParameterMetadata)
    (args : List JSValue) (st' : ParamState)
    (hok : processParams args params (initParamState ⟨renderChunks cs⟩) = .ok st')
    (hfree : ∀ c ∈ cs, chunkColonFree c)
    (hvals : ∀ kv ∈ pathSubsL args params, ':' ∉ kv.2 ∧ Char.ofNat 36 ∉ kv.2)
    (hperm : (chunkHoles cs).Perm ((pathSubsL args params).map Prod.fst))
    (hpair : ((pathSubsL args params).map Prod.fst).Pairwise keyIncomp) :
    ':' ∉ st'.url.data := by
  have hurl := processParams_url args params _ _ hok
  rw [hurl]
  exact substAll_colonFree (pathSubsL args params) cs hfree hvals hperm hpair

theorem path_resolution_amended_witness :
    ':' ∉ ("/users/42/posts/7" : String).data :=
  path_resolution_amended
    [Chunk.lit "/users/".data, Chunk.hole "id".data, Chunk.lit "/posts/".data,
      Chunk.hole "postId".data]
    (declaredParameters [⟨0, .path, some "id"⟩, ⟨1, .path, some "postId"⟩])
    [.str "42", .str "7"]
    ⟨"/users/42/posts/7", [], [], [], .undef⟩
    rfl (by decide) (by decide)
    (by exact List.Perm.swap "postId".data "id".data [])
    (by decide)

/-- C9 counterexample: the template `/:ab/:a` contains two distinct
placeholders `:ab` and `:a`, and the method is called with both
path-bound arguments defined (declaration order ab then a, so the stored
metadata processes `a` first).  `String.replace(":a", "7")` finds `:a`
inside `:ab` first and produces `/7b/:a`: the `:ab` placeholder is
destroyed and `:a` remains in the resolved URL. -/
theorem path_resolution_counterexample :
    (assembleRequest ⟨"GET", "/:ab/:a", "demo"⟩
        (declaredParameters [⟨0, .path, some "ab"⟩, ⟨1, .path, some "a"⟩])
        false none none [.str "x", .str "7"]).map (fun r => r.url) = .ok "/7b/:a" ∧
    ':' ∈ ("/7b/:a" : String).data := by
  exact ⟨rfl, by decide⟩

end RestifyModel
